import Mathlib

/-!
Verification of the field-mapping and leaf-hashing layer of the starky
vector-commitment engine (src/starky/src/digest_bn128.rs and
src/starky/src/linearhash_bn128.rs).

Modelling conventions:
* An inner-field element (winterfell `BaseElement`, Goldilocks) is represented
  by its canonical integer in `[0, p)`; `BaseElement::from(u64)` reduces mod p
  and `as_int` is the identity on the canonical representative.
* An outer-field value (`Fr`, BN128 scalar field) is represented by the
  256-bit integer held in its internal 4×u64 little-endian representation;
  for canonical values this integer is the field value and is `< r`.
  The `Fr` type itself lives in `poseidon_bn128.rs`, which is not among the
  visible sources, so its contract is modelled from the spec (§3, §4.1):
  the representation integer is the positional base-2^64 packing of the four
  limbs, construction from a decimal string rejects integers `≥ r` (no
  implicit reduction), and the standard string representation is
  `Fr(0x…)` with the canonical value as 64 zero-padded hex digits.
* Fallible Rust paths are modelled with `Option`: a `None` marks the point
  where the source either propagates an error or panics on `.unwrap()`.
* The Poseidon sponge (`Poseidon::hash(inputs, init_state)`) is an opaque
  collaborator; every statement about the hashers is parameterized over an
  arbitrary absorption function `sponge : List Nat → Nat → Nat`.
-/

set_option maxRecDepth 8192
set_option maxHeartbeats 1600000

/-- Goldilocks modulus: the inner 64-bit prime field `p = 2^64 - 2^32 + 1`. -/
def p : Nat := 18446744069414584321

/-- BN128 scalar-field modulus `r`, as spelled out in `to_montgomery`. -/
def r : Nat := 21888242871839275222246405745257275088548364400416034343698204186575808495617

/-- Model of `BaseElement::from(u64)`: reduction into the inner field. -/
def baseElementFrom (v : Nat) : Nat := v % p

/-- Model of `ElementDigest`: a fixed 4-tuple of inner-field elements, each
field holding the canonical integer (`as_int`) of one `BaseElement`. -/
structure ElementDigest where
  e0 : Nat
  e1 : Nat
  e2 : Nat
  e3 : Nat
deriving DecidableEq, Repr

/-- Well-formedness: each stored element is canonical in the inner field,
which is an invariant of the Rust `BaseElement` type. -/
def ElementDigest.wf (d : ElementDigest) : Prop :=
  d.e0 < p ∧ d.e1 < p ∧ d.e2 < p ∧ d.e3 < p

instance (d : ElementDigest) : Decidable d.wf := by
  unfold ElementDigest.wf; infer_instance

/-- Positional base-2^64 packing of the four limbs of a digest
(`limb0 + limb1*2^64 + limb2*2^128 + limb3*2^192`). -/
def ElementDigest.pack (d : ElementDigest) : Nat :=
  d.e0 + d.e1 * 2 ^ 64 + d.e2 * 2 ^ 128 + d.e3 * 2 ^ 192

/-- Modelled from the spec: `Fr::from_str` (OuterField construction from an
integer, in `poseidon_bn128.rs`, not under src/) "fails with a range error if
the integer ≥ r (not implicitly reduced)". -/
def frFromStr (n : Nat) : Option Nat :=
  if n < r then some n else none

/-- Model of `Into<Fr> for ElementDigest` (digest_bn128.rs lines 49-58): each
element's canonical integer is written raw into the Fr's internal 4×u64
little-endian representation, with no range check against `r`. -/
def ElementDigest.intoFr (d : ElementDigest) : Nat :=
  d.e0 + d.e1 * 2 ^ 64 + d.e2 * 2 ^ 128 + d.e3 * 2 ^ 192

/-- Model of `From<&Fr> for ElementDigest` (digest_bn128.rs lines 38-47): the
four raw 64-bit words of the Fr representation are read back and each is fed
through `BaseElement::from` (reduction mod p). -/
def ElementDigest.fromFr (x : Nat) : ElementDigest :=
  { e0 := baseElementFrom (x % 2 ^ 64)
    e1 := baseElementFrom (x / 2 ^ 64 % 2 ^ 64)
    e2 := baseElementFrom (x / 2 ^ 128 % 2 ^ 64)
    e3 := baseElementFrom (x / 2 ^ 192 % 2 ^ 64) }

/-- Model of `FieldMapping::to_BN128` (digest_bn128.rs lines 61-77): build the
packed big integer limb by limb with shifted additions, then construct an Fr
from its decimal string; the trailing `.unwrap()` turns the range failure into
a panic, modelled as `none`. -/
def to_BN128 (e : ElementDigest) : Option Nat :=
  let result := e.e0
  let result := result + (e.e1 <<< 64)
  let result := result + (e.e2 <<< 128)
  let result := result + (e.e3 <<< 192)
  frFromStr result

/-- Lowercase hex digit for a value below 16 (library model of hex encoding). -/
def hexDigit (n : Nat) : Char :=
  if n < 10 then Char.ofNat (48 + n) else Char.ofNat (87 + n)

/-- Big-endian hex digits of `n` with no leading zeros (empty for `n = 0`);
the fuel argument only bounds the recursion depth. -/
def toHexCore : Nat → Nat → List Char
  | 0, _ => []
  | fuel + 1, n => if n = 0 then [] else toHexCore fuel (n / 16) ++ [hexDigit (n % 16)]

/-- Model of ff's `to_hex`: the canonical value of an Fr serialized big-endian
over the full 4×u64 representation, i.e. zero-padded to 64 hex characters. -/
def to_hex (x : Nat) : List Char :=
  let ds := toHexCore 256 x
  List.replicate (64 - ds.length) '0' ++ ds

/-- Numeric value of a hex digit character, `none` on a non-digit. -/
def hexVal (c : Char) : Option Nat :=
  if 48 ≤ c.toNat ∧ c.toNat ≤ 57 then some (c.toNat - 48)
  else if 97 ≤ c.toNat ∧ c.toNat ≤ 102 then some (c.toNat - 87)
  else none

/-- Fold one parsed hex digit into the accumulator. -/
def parseHexStep (acc : Option Nat) (c : Char) : Option Nat :=
  acc.bind fun a => (hexVal c).map fun v => a * 16 + v

/-- Model of `BigUint::from_str_radix(s, 16)`: an empty string (and any
non-digit character) is a parse error. -/
def fromStrRadix16 (s : List Char) : Option Nat :=
  if s = [] then none else s.foldl parseHexStep (some 0)

/-- Model of `.trim_start_matches('0')`. -/
def trimLeadingZeros (s : List Char) : List Char :=
  s.dropWhile fun c => c == '0'

/-- Model of `FieldMapping::to_montgomery` (digest_bn128.rs lines 84-97):
re-parse the zero-trimmed hex form of `e`, multiply by `2^256`, reduce mod
`r`, and rebuild an Fr; the `.unwrap()` of a failed parse is a panic,
modelled as `none`. -/
def to_montgomery (e : Nat) : Option Nat :=
  match fromStrRadix16 (trimLeadingZeros (to_hex e)) with
  | none => none
  | some ee => frFromStr (2 ^ 256 * ee % r)

/-- Model of `FieldMapping::to_GL` (digest_bn128.rs lines 99-112): re-parse
the zero-trimmed hex form of `f`, then four times take the low 64 bits
(mask `0xFFFFFFFFFFFFFFFF`), reduce them into the inner field via
`BaseElement::from`, and shift right by 64; the `.unwrap()` of a failed
parse is a panic, modelled as `none`. -/
def to_GL (f : Nat) : Option ElementDigest :=
  match fromStrRadix16 (trimLeadingZeros (to_hex f)) with
  | none => none
  | some f0 =>
      let t0 := f0 % 2 ^ 64
      let f1 := f0 / 2 ^ 64
      let t1 := f1 % 2 ^ 64
      let f2 := f1 / 2 ^ 64
      let t2 := f2 % 2 ^ 64
      let f3 := f2 / 2 ^ 64
      let t3 := f3 % 2 ^ 64
      some
        { e0 := baseElementFrom t0
          e1 := baseElementFrom t1
          e2 := baseElementFrom t2
          e3 := baseElementFrom t3 }

/-- Round trip of the two field maps: `to_outer(to_inner(x))`, with the
digest produced by `to_GL` fed back through `to_BN128`. -/
def to_BN128_of_to_GL (x : Nat) : Option Nat :=
  (to_GL x).bind to_BN128

/-- Modelled from the spec: the outer field's standard string representation
(exhibited by the repository test `test_linearhashBN128`), `Fr(0x…)` with the
canonical value printed as 64 zero-padded lowercase hex digits; this is the
hex part. -/
def frStdHex (v : Nat) : String :=
  String.mk (to_hex v)

/-- Modelled from the spec: full standard string representation of an Fr. -/
def frStdString (v : Nat) : String :=
  "Fr(0x" ++ frStdHex v ++ ")"

/-- Modelled from the spec: the precomputed base-2^64 positional offset
`OFFSET_2_64` from the constants module (not under src/). -/
def OFFSET_2_64 : Nat := 2 ^ 64

/-- Modelled from the spec: the precomputed base-2^128 positional offset
`OFFSET_2_128` from the constants module (not under src/). -/
def OFFSET_2_128 : Nat := 2 ^ 128

/-- A sponge absorption function, `Poseidon::hash(inputs, init_state)` of the
opaque Poseidon collaborator: inputs first, running state second. -/
def Sponge : Type := List Nat → Nat → Nat

/-- Running accumulator of `hash_element_matrix`'s packing loop: the list of
finished packed values `vals3`, the partial pack `acc`, and its fill `accN`. -/
structure HState where
  vals3 : List Nat
  acc : Nat
  accN : Nat
deriving DecidableEq, Repr

/-- One iteration of the inner loop of `hash_element_matrix`
(linearhash_bn128.rs lines 30-45): position-scale the element by the
base-2^64 offsets, add it into `acc` (Fr arithmetic, mod `r`), and close a
triple when `accN` reaches 3. -/
def absorbElem (s : HState) (v : Nat) : HState :=
  let e := if s.accN = 1 then v * OFFSET_2_64 % r
           else if s.accN = 2 then v * OFFSET_2_128 % r
           else v
  let acc := (s.acc + e) % r
  let accN := s.accN + 1
  if accN = 3 then ⟨s.vals3 ++ [acc], 0, 0⟩ else ⟨s.vals3, acc, accN⟩

/-- The sponge loop of `hash_element_matrix` (linearhash_bn128.rs lines
55-66): buffer packed values into `inHash`, absorb the buffer into the state
whenever it reaches 16 entries, and absorb a final non-empty partial buffer. -/
def absorbAll (sponge : Sponge) : Nat → List Nat → List Nat → Nat
  | st, inHash, [] => if inHash = [] then st else sponge inHash st
  | st, inHash, v :: rest =>
      let inHash := inHash ++ [v]
      if inHash.length = 16 then absorbAll sponge (sponge inHash st) [] rest
      else absorbAll sponge st inHash rest

/-- The three-way return of `hash_element_matrix` (linearhash_bn128.rs lines
50-67): no packed value gives the untouched zero state, exactly one packed
value is returned directly, otherwise the sponge loop runs from state zero. -/
def finishVals (sponge : Sponge) : List Nat → Nat
  | [] => 0
  | [v] => v
  | v1 :: v2 :: rest => absorbAll sponge 0 [] (v1 :: v2 :: rest)

/-- Model of `LinearHashBN128::hash_element_matrix` (linearhash_bn128.rs
lines 22-68), parameterized over the sponge: traverse the columns in order
and the elements within each column in order, pack consecutive triples, flush
a trailing partial pack, and finish per `finishVals`. Matrix entries stand
for `BaseElement::as_int()` values. -/
def hash_element_matrix (sponge : Sponge) (columns : List (List Nat)) : Nat :=
  let s := columns.foldl (fun st col => col.foldl absorbElem st) ⟨[], 0, 0⟩
  let vals3 := if s.accN > 0 then s.vals3 ++ [s.acc] else s.vals3
  finishVals sponge vals3

/-- Model of `<LinearHashBN128 as Hasher>::merge` (linearhash_bn128.rs lines
84-89): convert both digests to Fr by the raw limb-copy conversion
`Into<Fr>`, absorb the two-element sequence with a fresh zero initial state,
and read the resulting Fr back as a digest. -/
def merge (sponge : Sponge) (a b : ElementDigest) : ElementDigest :=
  ElementDigest.fromFr (sponge [a.intoFr, b.intoFr] 0)

/-- The combination the claim describes for `merge`: absorb the two-element
sequence `[to_outer a, to_outer b]` (via the range-checked `to_BN128`) from a
fresh zero state; `none` when either `to_outer` fails. -/
def mergeViaToOuter (sponge : Sponge) (a b : ElementDigest) : Option ElementDigest :=
  (to_BN128 a).bind fun fa =>
    (to_BN128 b).map fun fb => ElementDigest.fromFr (sponge [fa, fb] 0)

/-- Model of `<LinearHashBN128 as Hasher>::merge_with_int` (linearhash_bn128.rs
lines 92-95): the body immediately panics with this message; the trailing
`ElementDigest::default()` is unreachable and never returned. -/
def merge_with_int (_seed : ElementDigest) (_value : Nat) : Except String ElementDigest :=
  Except.error "Unimplemented method"

/-- A digest that packs to an integer at or above `r`: all limbs zero except
the top limb, which holds the largest canonical inner-field element. -/
def dBig : ElementDigest := ⟨0, 0, 0, p - 1⟩

/-- A concrete computable stand-in for the opaque Poseidon absorption, used
only to instantiate sponge-parameterized statements at a closed point. -/
def spongeStandIn : Sponge := fun inputs st => (st + inputs.foldl (· + ·) 0) % r

/-- Concatenation of the columns in traversal order (outer loop over columns,
inner loop over each column's elements). -/
def flatCols (cols : List (List Nat)) : List Nat := cols.foldr (· ++ ·) []

/-- The limbs of an outer-field value are canonical in the inner field. -/
def canonLimbs (x : Nat) : Prop :=
  x % 2 ^ 64 < p ∧ x / 2 ^ 64 % 2 ^ 64 < p ∧
    x / 2 ^ 128 % 2 ^ 64 < p ∧ x / 2 ^ 192 % 2 ^ 64 < p

instance (x : Nat) : Decidable (canonLimbs x) := by
  unfold canonLimbs; infer_instance

/-- The value asserted for leaf-hash literal vector 2 by the repository's own
test `test_linearhashBN128` (linearhash_bn128.rs lines 106-125). -/
def c2Value : Nat := 0x29c2ac38b7b8d18b9c1b575369cb4ab930ef71ebd5e4631b3916360233a29cae

/-- The 63-hex-digit literal the spec gives for literal vector 2. -/
def c2SpecHex : String := "29c2ac38b7b8d18b9c1b575369cb4ab930ef71ebd5e4631b3916360233a29ca"

/-- The exact expected string asserted by `test_linearhashBN128`. -/
def c2TestString : String :=
  "Fr(0x29c2ac38b7b8d18b9c1b575369cb4ab930ef71ebd5e4631b3916360233a29cae)"

/-- The literal-vector-2 input matrix: 100 columns, where column `e` holds
`[e, e*1000, e*1000000]`, exactly as built in `test_linearhashBN128`. -/
def c2Matrix : List (List Nat) :=
  (List.range 100).map fun e => [e, e * 1000, e * 1000000]

/-! Helper lemmas about the hex printing and parsing round trip. -/

theorem toHexCore_zero (fuel : Nat) : toHexCore fuel 0 = [] := by
  cases fuel <;> simp [toHexCore]

theorem hexVal_hexDigit : ∀ m, m < 16 → hexVal (hexDigit m) = some m := by decide

theorem hexDigit_ne_zero_char : ∀ m, m < 16 → 0 < m → (hexDigit m == '0') = false := by
  decide

theorem toHexCore_succ (fuel n : Nat) (hn : n ≠ 0) :
    toHexCore (fuel + 1) n = toHexCore fuel (n / 16) ++ [hexDigit (n % 16)] := by
  simp [toHexCore, hn]

theorem toHexCore_head_ne_zero :
    ∀ fuel n, 0 < n → n < 16 ^ fuel →
      ∃ c rest, toHexCore fuel n = c :: rest ∧ (c == '0') = false := by
  intro fuel
  induction fuel with
  | zero => intro n h1 h2; omega
  | succ f ih =>
    intro n h1 h2
    rw [toHexCore_succ f n (by omega)]
    by_cases hq : n / 16 = 0
    · rw [hq, toHexCore_zero, List.nil_append]
      refine ⟨hexDigit (n % 16), [], rfl, ?_⟩
      exact hexDigit_ne_zero_char (n % 16) (Nat.mod_lt _ (by norm_num)) (by omega)
    · have hpow : (16 : Nat) ^ (f + 1) = 16 ^ f * 16 := pow_succ 16 f
      have hdiv : n / 16 < 16 ^ f := Nat.div_lt_of_lt_mul (by omega)
      obtain ⟨c, rest, hcr, hc⟩ := ih (n / 16) (by omega) hdiv
      exact ⟨c, rest ++ [hexDigit (n % 16)], by rw [hcr]; rfl, hc⟩

theorem dropWhile_replicate_zero :
    ∀ (k : Nat) (ds : List Char),
      ((List.replicate k '0' ++ ds).dropWhile fun c => c == '0') =
        ds.dropWhile fun c => c == '0' := by
  intro k ds
  simp [List.dropWhile_append]

theorem trimLeadingZeros_to_hex (x : Nat) (h1 : 0 < x) (h2 : x < 2 ^ 256) :
    trimLeadingZeros (to_hex x) = toHexCore 256 x := by
  have hx16 : x < 16 ^ 256 := by
    calc x < 2 ^ 256 := h2
    _ ≤ 16 ^ 256 := Nat.pow_le_pow_left (by norm_num) 256
  obtain ⟨c, rest, hcr, hc⟩ := toHexCore_head_ne_zero 256 x h1 hx16
  unfold trimLeadingZeros to_hex
  rw [dropWhile_replicate_zero, hcr, List.dropWhile_cons, hc]
  simp

theorem parseHexStep_some (a : Nat) (c : Char) (v : Nat) (h : hexVal c = some v) :
    parseHexStep (some a) c = some (a * 16 + v) := by
  simp [parseHexStep, h]

theorem foldl_parseHexStep_toHexCore :
    ∀ fuel n acc, n < 16 ^ fuel →
      (toHexCore fuel n).foldl parseHexStep (some acc) =
        some (acc * 16 ^ (toHexCore fuel n).length + n) := by
  intro fuel
  induction fuel with
  | zero =>
    intro n acc h
    have : n = 0 := by omega
    subst this
    simp [toHexCore]
  | succ f ih =>
    intro n acc h
    by_cases hn : n = 0
    · subst hn; simp [toHexCore_zero]
    · rw [toHexCore_succ f n hn, List.foldl_append]
      have hpow1 : (16 : Nat) ^ (f + 1) = 16 ^ f * 16 := pow_succ 16 f
      have hdiv : n / 16 < 16 ^ f := Nat.div_lt_of_lt_mul (by omega)
      rw [ih (n / 16) acc hdiv]
      have hdig := hexVal_hexDigit (n % 16) (Nat.mod_lt _ (by norm_num))
      rw [List.foldl_cons, List.foldl_nil, parseHexStep_some _ _ _ hdig,
        List.length_append, List.length_cons, List.length_nil]
      rw [Nat.zero_add, pow_succ, ← mul_assoc]
      generalize (toHexCore f (n / 16)).length = L
      generalize acc * 16 ^ L = B
      simp only [Option.some.injEq]
      omega

theorem parse_trim_to_hex (x : Nat) (h1 : 0 < x) (h2 : x < 2 ^ 256) :
    fromStrRadix16 (trimLeadingZeros (to_hex x)) = some x := by
  rw [trimLeadingZeros_to_hex x h1 h2]
  have hx16 : x < 16 ^ 256 := by
    calc x < 2 ^ 256 := h2
    _ ≤ 16 ^ 256 := Nat.pow_le_pow_left (by norm_num) 256
  obtain ⟨c, rest, hcr, _⟩ := toHexCore_head_ne_zero 256 x h1 hx16
  unfold fromStrRadix16
  rw [hcr, if_neg (by simp)]
  rw [← hcr]
  have := foldl_parseHexStep_toHexCore 256 x 0 hx16
  rw [this]
  simp

theorem to_GL_zero : to_GL 0 = none := by decide

theorem to_montgomery_zero : to_montgomery 0 = none := by decide

theorem to_BN128_of_to_GL_zero : to_BN128_of_to_GL 0 = none := by
  unfold to_BN128_of_to_GL
  rw [to_GL_zero]
  rfl

theorem to_GL_pos (x : Nat) (h1 : 0 < x) (h2 : x < 2 ^ 256) :
    to_GL x = some
      { e0 := x % 2 ^ 64 % p
        e1 := x / 2 ^ 64 % 2 ^ 64 % p
        e2 := x / 2 ^ 128 % 2 ^ 64 % p
        e3 := x / 2 ^ 192 % 2 ^ 64 % p } := by
  unfold to_GL
  rw [parse_trim_to_hex x h1 h2]
  simp only [baseElementFrom, Option.some.injEq, ElementDigest.mk.injEq]
  refine ⟨trivial, trivial, ?_, ?_⟩
  · rw [Nat.div_div_eq_div_mul]
    norm_num
  · rw [Nat.div_div_eq_div_mul, Nat.div_div_eq_div_mul]
    norm_num

theorem to_montgomery_pos (x : Nat) (h1 : 0 < x) (h2 : x < 2 ^ 256) :
    to_montgomery x = some (x * 2 ^ 256 % r) := by
  unfold to_montgomery
  rw [parse_trim_to_hex x h1 h2]
  have hlt : 2 ^ 256 * x % r < r := Nat.mod_lt _ (by decide)
  show frFromStr (2 ^ 256 * x % r) = some (x * 2 ^ 256 % r)
  unfold frFromStr
  rw [if_pos hlt, Nat.mul_comm (2 ^ 256) x]

/-! Claim theorems. -/

/-- C10 (confirmed): for every well-formed digest `d`, converting `d` to an
outer-field value by the raw limb-copy conversion `Into<Fr>` and back by the
inverse limb-copy conversion `From<&Fr>` yields a digest element-wise equal
to `d`, independent of whether the packed 256-bit value is a canonical
outer-field element. -/
theorem C10_raw_limb_round_trip (d : ElementDigest) (hwf : d.wf) :
    ElementDigest.fromFr d.intoFr = d := by
  obtain ⟨h0, h1, h2, h3⟩ := hwf
  cases d with
  | mk e0 e1 e2 e3 =>
    simp only [ElementDigest.fromFr, ElementDigest.intoFr, baseElementFrom] at *
    simp only [ElementDigest.mk.injEq]
    unfold p at *
    norm_num
    omega

/-- C10 witness: the round trip at the concrete digest `(1, 2, 3, 4)`. -/
theorem C10_witness :
    ElementDigest.wf ⟨1, 2, 3, 4⟩ ∧
      ElementDigest.fromFr (ElementDigest.intoFr ⟨1, 2, 3, 4⟩) = ⟨1, 2, 3, 4⟩ :=
  ⟨by decide, C10_raw_limb_round_trip ⟨1, 2, 3, 4⟩ (by decide)⟩

/-- C9 (confirmed): every call to `merge_with_int` fails with the explicit
unsupported-operation panic message from the source; it never returns a
digest, in particular never the default digest in its unreachable tail. -/
theorem C9_merge_with_int_always_fails (seed : ElementDigest) (value : Nat) :
    merge_with_int seed value = Except.error "Unimplemented method" := rfl

/-- C3 (code_bug evidence): `to_BN128` combines the limbs positionally, and
on the digest `dBig`, whose packed integer is `≥ r`, the `Fr` construction
fails and the source's `.unwrap()` panics (modelled by `none`) instead of
surfacing a recoverable range error; on an in-range digest the packed value
is returned unreduced. -/
theorem C3_to_outer_range_behavior :
    to_BN128 dBig = none ∧ r ≤ dBig.pack ∧
      to_BN128 ⟨1, 2, 3, 4⟩ = some (ElementDigest.pack ⟨1, 2, 3, 4⟩) := by
  refine ⟨by decide, by decide, by decide⟩

/-- C4 (code_bug evidence): `to_GL` panics on the input `0` (the zero-padded
hex form trims to the empty string, whose big-integer parse fails under the
`.unwrap()`), contradicting the claim that it succeeds for every input; on
every nonzero representable input it returns the four little-endian 64-bit
limbs each reduced modulo `p`, as the claim describes. -/
theorem C4_to_inner_behavior :
    to_GL 0 = none ∧
      ∀ x, 0 < x → x < 2 ^ 256 →
        to_GL x = some
          { e0 := x % 2 ^ 64 % p
            e1 := x / 2 ^ 64 % 2 ^ 64 % p
            e2 := x / 2 ^ 128 % 2 ^ 64 % p
            e3 := x / 2 ^ 192 % 2 ^ 64 % p } :=
  ⟨to_GL_zero, to_GL_pos⟩

/-- C4 witness: the nonzero branch of the theorem applied at `x = 5`. -/
theorem C4_witness : 0 < 5 ∧ 5 < 2 ^ 256 ∧ to_GL 5 = some ⟨5, 0, 0, 0⟩ :=
  ⟨by decide, by decide,
    (C4_to_inner_behavior.2 5 (by decide) (by decide)).trans (by decide)⟩

/-- C5 (code_bug evidence): `to_montgomery` panics on the input `0` (same
empty-trimmed-hex parse failure under `.unwrap()`), contradicting the claim
that it works for every input; on every nonzero representable input it
returns exactly `x * 2^256 mod r`. -/
theorem C5_to_montgomery_behavior :
    to_montgomery 0 = none ∧
      ∀ x, 0 < x → x < 2 ^ 256 → to_montgomery x = some (x * 2 ^ 256 % r) :=
  ⟨to_montgomery_zero, to_montgomery_pos⟩

/-- C5 witness: the nonzero branch of the theorem applied at `x = 1`. -/
theorem C5_witness : 0 < 1 ∧ 1 < 2 ^ 256 ∧ to_montgomery 1 = some (1 * 2 ^ 256 % r) :=
  ⟨by decide, by decide, C5_to_montgomery_behavior.2 1 (by decide) (by decide)⟩

/-- C6 (code_bug evidence): the round trip `to_outer(to_inner(x))` fails at
`x = 0` (the claim includes `0`, whose limbs are trivially canonical, but
`to_GL` panics there), while for every nonzero `x < r` whose four 64-bit
limbs are canonical in the inner field it returns exactly `x`. -/
theorem C6_round_trip_behavior :
    to_BN128_of_to_GL 0 = none ∧
      ∀ x, 0 < x → x < r → canonLimbs x → to_BN128_of_to_GL x = some x := by
  refine ⟨to_BN128_of_to_GL_zero, ?_⟩
  intro x hx hxr hcanon
  obtain ⟨c0, c1, c2, c3⟩ := hcanon
  have hr256 : r < 2 ^ 256 := by norm_num [r]
  have hx256 : x < 2 ^ 256 := lt_trans hxr hr256
  unfold to_BN128_of_to_GL
  rw [to_GL_pos x hx hx256]
  rw [Nat.mod_eq_of_lt c0, Nat.mod_eq_of_lt c1, Nat.mod_eq_of_lt c2, Nat.mod_eq_of_lt c3]
  simp only [Option.some_bind]
  unfold to_BN128
  simp only [Nat.shiftLeft_eq]
  have hsum :
      x % 2 ^ 64 + x / 2 ^ 64 % 2 ^ 64 * 2 ^ 64 + x / 2 ^ 128 % 2 ^ 64 * 2 ^ 128 +
        x / 2 ^ 192 % 2 ^ 64 * 2 ^ 192 = x := by
    norm_num
    omega
  rw [hsum]
  unfold frFromStr
  rw [if_pos hxr]

/-- C6 witness: the nonzero branch of the theorem applied at `x = 1`. -/
theorem C6_witness :
    0 < 1 ∧ 1 < r ∧ canonLimbs 1 ∧ to_BN128_of_to_GL 1 = some 1 :=
  ⟨by decide, by decide, by decide,
    C6_round_trip_behavior.2 1 (by decide) (by decide) (by decide)⟩

/-! Helper lemmas for the leaf hasher. -/

theorem fold_empty_cols (cols : List (List Nat)) (st : HState)
    (h : ∀ c ∈ cols, c = []) :
    cols.foldl (fun s col => col.foldl absorbElem s) st = st := by
  induction cols generalizing st with
  | nil => rfl
  | cons c cs ih =>
    rw [List.foldl_cons, h c (List.mem_cons_self c cs)]
    exact ih st fun d hd => h d (List.mem_cons_of_mem c hd)

theorem foldl_flatCols (cols : List (List Nat)) (st : HState) :
    cols.foldl (fun s col => col.foldl absorbElem s) st =
      (flatCols cols).foldl absorbElem st := by
  induction cols generalizing st with
  | nil => rfl
  | cons c cs ih =>
    rw [List.foldl_cons,
      show flatCols (c :: cs) = c ++ flatCols cs from rfl, List.foldl_append]
    exact ih _

theorem hashFlat_small (sponge : Sponge) (l : List Nat)
    (hwf : ∀ v ∈ l, v < p) (h1 : 1 ≤ l.length) (h3 : l.length ≤ 3) :
    (let s := l.foldl absorbElem (⟨[], 0, 0⟩ : HState)
     finishVals sponge (if s.accN > 0 then s.vals3 ++ [s.acc] else s.vals3)) =
      l.getD 0 0 + l.getD 1 0 * 2 ^ 64 + l.getD 2 0 * 2 ^ 128 := by
  rcases l with _ | ⟨a, _ | ⟨b, _ | ⟨c, _ | ⟨d, rest⟩⟩⟩⟩
  · simp at h1
  · have ha : a < p := hwf a (by simp)
    show (0 + a) % r = a + 0 * 2 ^ 64 + 0 * 2 ^ 128
    unfold p at ha
    unfold r
    norm_num
    omega
  · have ha : a < p := hwf a (by simp)
    have hb : b < p := hwf b (by simp)
    show ((0 + a) % r + b * OFFSET_2_64 % r) % r = a + b * 2 ^ 64 + 0 * 2 ^ 128
    unfold p at ha hb
    unfold r OFFSET_2_64
    norm_num
    omega
  · have ha : a < p := hwf a (by simp)
    have hb : b < p := hwf b (by simp)
    have hc : c < p := hwf c (by simp)
    show (((0 + a) % r + b * OFFSET_2_64 % r) % r + c * OFFSET_2_128 % r) % r =
      a + b * 2 ^ 64 + c * 2 ^ 128
    unfold p at ha hb hc
    unfold r OFFSET_2_64 OFFSET_2_128
    norm_num
    omega
  · simp at h3

/-- C1 counterexample: the claim quantifies over every pair of digests, but a
digest whose packed integer is `≥ r` (such as `dBig`) makes `to_outer` fail,
so the absorption of `[to_outer a, to_outer b]` is undefined while `merge`
still returns a digest built from the raw packings; this failure is
independent of the sponge, refuted here at a concrete stand-in. -/
theorem C1_counterexample :
    ¬ ∀ (sponge : Sponge) (a b : ElementDigest),
        mergeViaToOuter sponge a b = some (merge sponge a b) := by
  intro h
  have h2 := h (fun _ _ => 0) dBig dBig
  have hnone : mergeViaToOuter (fun _ _ => 0) dBig dBig = none := by decide
  rw [hnone] at h2
  exact Option.noConfusion h2

/-- C1 (corrected): for every sponge and every pair of digests whose packed
integers are both below `r`, `merge(a, b)` equals the digest of the sponge
absorption, with a fresh zero initial state, of `[to_outer a, to_outer b]` —
the two Fr values fed to the sponge are the positional base-2^64 packings of
the two digests. -/
theorem C1_merge_via_to_outer (sponge : Sponge) (a b : ElementDigest)
    (ha : a.pack < r) (hb : b.pack < r) :
    mergeViaToOuter sponge a b = some (merge sponge a b) := by
  unfold ElementDigest.pack at ha hb
  unfold mergeViaToOuter merge to_BN128 ElementDigest.intoFr frFromStr
  simp only [Nat.shiftLeft_eq]
  rw [if_pos ha, if_pos hb]
  rfl

/-- C1 witness: the amended theorem applied to the zero digests at the
concrete stand-in sponge. -/
theorem C1_witness :
    ElementDigest.pack ⟨0, 0, 0, 0⟩ < r ∧
      mergeViaToOuter spongeStandIn ⟨0, 0, 0, 0⟩ ⟨0, 0, 0, 0⟩ =
        some (merge spongeStandIn ⟨0, 0, 0, 0⟩ ⟨0, 0, 0, 0⟩) :=
  ⟨by decide, C1_merge_via_to_outer spongeStandIn _ _ (by decide) (by decide)⟩

/-- C7 (confirmed): on an empty input — no columns, or only empty columns —
`hash_element_matrix` returns the outer-field additive identity, and the
result does not depend on the sponge at all (no absorption is performed). -/
theorem C7_empty_reduction (sponge : Sponge) (columns : List (List Nat))
    (h : ∀ c ∈ columns, c = []) :
    hash_element_matrix sponge columns = 0 := by
  unfold hash_element_matrix
  rw [fold_empty_cols columns ⟨[], 0, 0⟩ h]
  rfl

/-- C7 witness: the theorem applied to a matrix of two empty columns at the
concrete stand-in sponge. -/
theorem C7_witness :
    (∀ c ∈ [([] : List Nat), []], c = []) ∧
      hash_element_matrix spongeStandIn [[], []] = 0 :=
  ⟨by decide, C7_empty_reduction spongeStandIn [[], []] (by decide)⟩

/-- C8 (confirmed): whenever the total element count over all columns is
between 1 and 3, exactly one packed value `v0 + v1*2^64 + v2*2^128` is
produced (missing slots zero) and `hash_element_matrix` returns it directly;
the result does not depend on the sponge (the sponge call is bypassed). -/
theorem C8_single_pack_bypass (sponge : Sponge) (columns : List (List Nat))
    (hwf : ∀ v ∈ flatCols columns, v < p)
    (h1 : 1 ≤ (flatCols columns).length) (h3 : (flatCols columns).length ≤ 3) :
    hash_element_matrix sponge columns =
      (flatCols columns).getD 0 0 + (flatCols columns).getD 1 0 * 2 ^ 64 +
        (flatCols columns).getD 2 0 * 2 ^ 128 := by
  unfold hash_element_matrix
  rw [foldl_flatCols]
  exact hashFlat_small sponge (flatCols columns) hwf h1 h3

/-- C8 witness: the theorem applied to the two-column matrix `[[5], [9]]`
(two elements in total) at the concrete stand-in sponge. -/
theorem C8_witness :
    (∀ v ∈ flatCols [[5], [9]], v < p) ∧ 1 ≤ (flatCols [[5], [9]]).length ∧
      (flatCols [[5], [9]]).length ≤ 3 ∧
      hash_element_matrix spongeStandIn [[5], [9]] =
        (flatCols [[5], [9]]).getD 0 0 + (flatCols [[5], [9]]).getD 1 0 * 2 ^ 64 +
          (flatCols [[5], [9]]).getD 2 0 * 2 ^ 128 :=
  ⟨by decide, by decide, by decide,
    C8_single_pack_bypass spongeStandIn [[5], [9]] (by decide) (by decide) (by decide)⟩

/-! Claim C2: the leaf-hash literal vector. -/

theorem length_to_hex_ge (v : Nat) : 64 ≤ (to_hex v).length := by
  unfold to_hex
  rw [List.length_append, List.length_replicate]
  omega

theorem frStdHex_c2Value : frStdHex c2Value = c2SpecHex ++ "e" := by decide

theorem frStdString_c2Value : frStdString c2Value = c2TestString := by decide

/-- C2 counterexample: the spec's 63-hex-digit literal cannot be the standard
string form of any outer-field value (the standard form always carries 64 hex
digits), and at the value pinned by the repository's own test the hex form is
the spec literal extended by the missing final digit `e`. -/
theorem C2_counterexample :
    (∀ v : Nat, frStdHex v ≠ c2SpecHex) ∧
      frStdHex c2Value = c2SpecHex ++ "e" ∧
      frStdString c2Value = c2TestString := by
  refine ⟨?_, frStdHex_c2Value, frStdString_c2Value⟩
  intro v hv
  have hlen : (to_hex v).length = c2SpecHex.length := congrArg String.length hv
  have h64 := length_to_hex_ge v
  have h63 : c2SpecHex.length = 63 := by decide
  omega

/-- C2 (corrected): on the 100-column matrix whose column `e` is
`[e, e*1000, e*1000000]`, whenever the sponge-driven reduction yields the
value asserted by the repository's test `test_linearhashBN128`, the standard
string representation of the result is exactly the test's expected string —
whose hex part is the spec literal with the dropped final digit `e`
restored. -/
theorem C2_literal_vector (sponge : Sponge)
    (h : hash_element_matrix sponge c2Matrix = c2Value) :
    frStdString (hash_element_matrix sponge c2Matrix) = c2TestString := by
  rw [h]
  exact frStdString_c2Value

/-- C2 witness: the amended theorem applied at a sponge that realizes the
test-pinned value, with the hash evaluated concretely on the matrix. -/
theorem C2_witness :
    hash_element_matrix (fun _ _ => c2Value) c2Matrix = c2Value ∧
      frStdString (hash_element_matrix (fun _ _ => c2Value) c2Matrix) = c2TestString := by
  have h : hash_element_matrix (fun _ _ => c2Value) c2Matrix = c2Value := by decide
  exact ⟨h, C2_literal_vector (fun _ _ => c2Value) h⟩
